import Mathlib

/-!
Shallow embedding of the decades-ppandas per-module processing pipeline
(ppodd.pod and ppodd.utils), together with theorems settling the spec
claims about it.

Conventions of the embedding:
  * Aligned working-frame columns of float data are modelled as functions
    from ℕ (sample position in the aligned index) to ℝ, or as Lean lists
    where the source manipulates a series positionally (forward fill,
    run grouping).  Undefined values (NaN) are modelled with Option.
  * Columns holding small integer flags are modelled over ℕ, and purely
    rational numeric columns over ℚ, so that the embedding stays
    executable there.
  * Functions of this repository that live outside the provided sources
    (ppodd.utils.calcs.sp_mach, the flight constants, the scipy curve
    fit) are taken as parameters of the embedding: the claims mention
    them only abstractly, so every theorem quantifies over them.
-/

namespace Ppodd

/-! ### ppodd.pod.p_airspeed: the AirSpeed module

The working frame of AirSpeed.process after get_dataframe holds the
aligned inputs Q_RVSM, PS_RVSM, TAT_DI_R; calc_mach, calc_ias and
calc_tas each add a derived column.  TASCORR and the physical constants
SPEED_OF_SOUND, ICAO_STD_PRESS, ICAO_STD_TEMP come from the dataset and
the constants table (ppodd.utils.constants, outside src), so the
embedding takes them as real parameters. -/

structure AirspeedFrame where
  Q_RVSM : ℕ → ℝ
  PS_RVSM : ℕ → ℝ
  TAT_DI_R : ℕ → ℝ
  MACHNO : ℕ → ℝ
  MACHNO_FLAG : ℕ → ℝ
  IAS_RVSM : ℕ → ℝ
  TAS_RVSM : ℕ → ℝ

/-- AirSpeed.calc_mach: MACHNO, MACHNO_FLAG = sp_mach(Q_RVSM, PS_RVSM, flag=True).
sp_mach (ppodd.utils.calcs) is outside src, hence the machFn parameter. -/
def airspeed_calc_mach (machFn : ℝ → ℝ → ℝ × ℝ) (d : AirspeedFrame) : AirspeedFrame :=
  { d with
    MACHNO := fun i => (machFn (d.Q_RVSM i) (d.PS_RVSM i)).1
    MACHNO_FLAG := fun i => (machFn (d.Q_RVSM i) (d.PS_RVSM i)).2 }

/-- AirSpeed.calc_ias: IAS_RVSM = SPEED_OF_SOUND * MACHNO * sqrt(PS_RVSM / ICAO_STD_PRESS). -/
noncomputable def airspeed_calc_ias (SPEED_OF_SOUND ICAO_STD_PRESS : ℝ)
    (d : AirspeedFrame) : AirspeedFrame :=
  { d with
    IAS_RVSM := fun i =>
      SPEED_OF_SOUND * d.MACHNO i * Real.sqrt (d.PS_RVSM i / ICAO_STD_PRESS) }

/-- AirSpeed.calc_tas: TAS_RVSM = TASCORR * SPEED_OF_SOUND * MACHNO * sqrt(TAT_DI_R / ICAO_STD_TEMP). -/
noncomputable def airspeed_calc_tas (TASCORR SPEED_OF_SOUND ICAO_STD_TEMP : ℝ)
    (d : AirspeedFrame) : AirspeedFrame :=
  { d with
    TAS_RVSM := fun i =>
      TASCORR * SPEED_OF_SOUND * d.MACHNO i * Real.sqrt (d.TAT_DI_R i / ICAO_STD_TEMP) }

/-- An emitted output variable: a data series plus the flag series attached
by DecadesVariable.add_flag. -/
structure OutputVar where
  data : ℕ → ℝ
  flagSeries : ℕ → ℝ

/-- AirSpeed.process: calc_mach, calc_ias, calc_tas, then emit IAS_RVSM and
TAS_RVSM, adding MACHNO_FLAG to each. -/
noncomputable def airspeed_process (machFn : ℝ → ℝ → ℝ × ℝ)
    (TASCORR SPEED_OF_SOUND ICAO_STD_PRESS ICAO_STD_TEMP : ℝ)
    (d0 : AirspeedFrame) : OutputVar × OutputVar :=
  let d1 := airspeed_calc_mach machFn d0
  let d2 := airspeed_calc_ias SPEED_OF_SOUND ICAO_STD_PRESS d1
  let d3 := airspeed_calc_tas TASCORR SPEED_OF_SOUND ICAO_STD_TEMP d2
  ({ data := d3.IAS_RVSM, flagSeries := d3.MACHNO_FLAG },
   { data := d3.TAS_RVSM, flagSeries := d3.MACHNO_FLAG })

/-- C1: in the airspeed module, at every sample of the aligned working frame
the emitted indicated airspeed is SPEED_OF_SOUND * Mach * sqrt(PS_RVSM /
ICAO_STD_PRESS) and the emitted true airspeed is TASCORR * SPEED_OF_SOUND *
Mach * sqrt(TAT_DI_R / ICAO_STD_TEMP), where Mach is the first component
returned by the Mach-from-pressures function on (Q_RVSM, PS_RVSM), and both
outputs carry the Mach-validity flag returned by that function. -/
theorem airspeed_outputs_formula (machFn : ℝ → ℝ → ℝ × ℝ)
    (TASCORR SPEED_OF_SOUND ICAO_STD_PRESS ICAO_STD_TEMP : ℝ)
    (d0 : AirspeedFrame) (i : ℕ) :
    (airspeed_process machFn TASCORR SPEED_OF_SOUND ICAO_STD_PRESS ICAO_STD_TEMP d0).1.data i
      = SPEED_OF_SOUND * (machFn (d0.Q_RVSM i) (d0.PS_RVSM i)).1
        * Real.sqrt (d0.PS_RVSM i / ICAO_STD_PRESS) ∧
    (airspeed_process machFn TASCORR SPEED_OF_SOUND ICAO_STD_PRESS ICAO_STD_TEMP d0).2.data i
      = TASCORR * SPEED_OF_SOUND * (machFn (d0.Q_RVSM i) (d0.PS_RVSM i)).1
        * Real.sqrt (d0.TAT_DI_R i / ICAO_STD_TEMP) ∧
    (airspeed_process machFn TASCORR SPEED_OF_SOUND ICAO_STD_PRESS ICAO_STD_TEMP d0).1.flagSeries i
      = (machFn (d0.Q_RVSM i) (d0.PS_RVSM i)).2 ∧
    (airspeed_process machFn TASCORR SPEED_OF_SOUND ICAO_STD_PRESS ICAO_STD_TEMP d0).2.flagSeries i
      = (machFn (d0.Q_RVSM i) (d0.PS_RVSM i)).2 :=
  ⟨rfl, rfl, rfl, rfl⟩

/-! ### The Mach floor shared by the temperature modules

RosemountTemperatures.calc_mach and ThermistorV1Temperatures.calc_mach are
textually identical: sp_mach followed by the in-place clamp
d.loc[d[MACHNO] < 0.05, MACHNO] = 0.05.  Each is embedded as its own
definition. -/

/-- RosemountTemperatures.calc_mach (p_rosemount_temps.py). -/
noncomputable def rosemount_calc_mach (machFn : ℝ → ℝ → ℝ × ℝ)
    (q ps : ℕ → ℝ) : (ℕ → ℝ) × (ℕ → ℝ) :=
  (fun i =>
     let m := (machFn (q i) (ps i)).1
     if m < 0.05 then 0.05 else m,
   fun i => (machFn (q i) (ps i)).2)

/-- ThermistorV1Temperatures.calc_mach (p_thermistor_temps.py). -/
noncomputable def thermistor_calc_mach (machFn : ℝ → ℝ → ℝ × ℝ)
    (q ps : ℕ → ℝ) : (ℕ → ℝ) × (ℕ → ℝ) :=
  (fun i =>
     let m := (machFn (q i) (ps i)).1
     if m < 0.05 then 0.05 else m,
   fun i => (machFn (q i) (ps i)).2)

/-- C9: after the Mach computation step of the platinum-probe and thermistor
temperature modules, every sample of the working-frame Mach series is at
least 0.05, whatever the Mach-from-pressures function returned; the step is
total (a clamp, not an exception) and the validity flag of the
Mach-from-pressures function is passed through unchanged. -/
theorem temperature_modules_mach_floor (machFn : ℝ → ℝ → ℝ × ℝ)
    (q ps : ℕ → ℝ) (i : ℕ) :
    0.05 ≤ (rosemount_calc_mach machFn q ps).1 i ∧
    0.05 ≤ (thermistor_calc_mach machFn q ps).1 i ∧
    (rosemount_calc_mach machFn q ps).2 i = (machFn (q i) (ps i)).2 ∧
    (thermistor_calc_mach machFn q ps).2 i = (machFn (q i) (ps i)).2 := by
  refine ⟨?_, ?_, rfl, rfl⟩ <;>
  · simp only [rosemount_calc_mach, thermistor_calc_mach]
    split
    · exact le_refl _
    · next h => exact le_of_not_lt h

/-! ### ppodd.pod.p_winds_gin: the GINWinds module

GINWinds.process builds a 1 Hz frame, corrects the RVSM true airspeed for
the Mach-dependent radome/ADC offset (correct_tas_rvsm), adds the heading
offset to HDG_GIN in place, decomposes the air vector and emits
U_NOTURB = VELE_GIN - air_spd_east, V_NOTURB = VELN_GIN + air_spd_north,
each with one bitmask condition |ROLL_GIN| > ROLL_THRESH. -/

/-- np.deg2rad. -/
noncomputable def deg2rad (x : ℝ) : ℝ := x * (Real.pi / 180)

/-- GINWinds.correct_tas_rvsm, pointwise on one sample:
mach = TAS_RVSM / (661.4788 * 0.514444) / sqrt(TAT_DI_R / 288.15);
delta_tas = 4.0739 - 32.1681 mach + 52.7136 mach^2;
TAS = (TAS_RVSM - delta_tas) * tas_scale_factor. -/
noncomputable def correct_tas_rvsm (tas_scale_factor tat_di_r tas_rvsm : ℝ) : ℝ :=
  let mach := tas_rvsm / (661.4788 * 0.514444) / Real.sqrt (tat_di_r / 288.15)
  let delta_tas := 4.0739 - 32.1681 * mach + 52.7136 * mach ^ 2
  (tas_rvsm - delta_tas) * tas_scale_factor

/-- GINWinds.calc_noturb_wspd, pointwise on one sample.  The source first
mutates d.HDG_GIN += GIN_HDG_OFFSET, then uses cos/sin of
deg2rad(HDG_GIN - 90) times the corrected TAS. -/
noncomputable def calc_noturb_wspd (hdg_offset tas_scale_factor : ℝ)
    (hdg tas_rvsm tat_di_r vele veln : ℝ) : ℝ × ℝ :=
  let tas := correct_tas_rvsm tas_scale_factor tat_di_r tas_rvsm
  let hdg2 := hdg + hdg_offset
  let air_spd_east := Real.cos (deg2rad (hdg2 - 90)) * tas
  let air_spd_north := Real.sin (deg2rad (hdg2 - 90)) * tas
  (vele - air_spd_east, veln + air_spd_north)

/-- ROLL_THRESH = 2 (p_winds_gin.py, module level). -/
def ROLL_THRESH : ℝ := 2

/-- The single bitmask condition added to U_NOTURB and V_NOTURB in
GINWinds.process: ROLL_GIN.abs() > ROLL_THRESH. -/
def winds_roll_mask (roll : ℕ → ℝ) (i : ℕ) : Prop := |roll i| > ROLL_THRESH

/-- C3: in the wind module the air-relative east component is
cos(deg2rad(HDG + heading_offset - 90)) * TAS_corrected, the emitted
components are U_NOTURB = VELE_GIN - that east component and
V_NOTURB = VELN_GIN + sin(deg2rad(HDG + heading_offset - 90)) * TAS_corrected;
with heading 0, zero offset and ground velocity (east, north) =
(0, TAS_corrected) the result is (U, V) = (0, 0); and the mask carried by
both outputs is set exactly where |ROLL_GIN| exceeds 2 degrees. -/
theorem winds_noturb_decomposition (hdg_offset tas_scale_factor : ℝ)
    (hdg tas_rvsm tat_di_r vele veln : ℝ) (roll : ℕ → ℝ) (i : ℕ) :
    ((calc_noturb_wspd hdg_offset tas_scale_factor hdg tas_rvsm tat_di_r vele veln).1
      = vele - Real.cos (deg2rad (hdg + hdg_offset - 90))
          * correct_tas_rvsm tas_scale_factor tat_di_r tas_rvsm ∧
     (calc_noturb_wspd hdg_offset tas_scale_factor hdg tas_rvsm tat_di_r vele veln).2
      = veln + Real.sin (deg2rad (hdg + hdg_offset - 90))
          * correct_tas_rvsm tas_scale_factor tat_di_r tas_rvsm) ∧
    calc_noturb_wspd 0 1 0 tas_rvsm tat_di_r 0 (correct_tas_rvsm 1 tat_di_r tas_rvsm)
      = (0, 0) ∧
    (winds_roll_mask roll i ↔ |roll i| > 2) := by
  refine ⟨⟨rfl, rfl⟩, ?_, Iff.rfl⟩
  have hang : deg2rad (0 + 0 - 90) = -(Real.pi / 2) := by
    unfold deg2rad; ring
  simp only [calc_noturb_wspd, hang, Real.cos_neg, Real.cos_pi_div_two,
    Real.sin_neg, Real.sin_pi_div_two, Prod.mk.injEq]
  constructor <;> ring

/-! ### ppodd.pod.p_rosemount_temps: heater self-heating correction

RosemountTemperatures.calc_heating_correction computes the
double-exponential correction at every sample, forward-fills the 1 Hz
PRTAFT_deiced_temp_flag onto the 32 Hz frame (pandas fillna pad, then
fillna 0), and zeroes the correction where the filled flag is 0.
calc_di_iat subtracts HEATING_CORRECTION from the deiced indicated
temperature; calc_ndi_iat does not reference it. -/

/-- pandas Series.fillna(method=pad), carrying the last defined value. -/
def ffillAux (carry : Option ℝ) : List (Option ℝ) → List (Option ℝ)
  | [] => []
  | x :: xs =>
    match x with
    | none => carry :: ffillAux carry xs
    | some v => some v :: ffillAux (some v) xs

/-- Forward fill with nothing before the first sample. -/
def pad_fill (xs : List (Option ℝ)) : List (Option ℝ) := ffillAux none xs

/-- PRTAFT_deiced_temp_flag.fillna(method=pad).fillna(0): remaining
undefined values (before the first defined one) become 0. -/
def heating_flag_filled (prtaft : List (Option ℝ)) : List ℝ :=
  (pad_fill prtaft).map (fun o => o.getD 0)

/-- The double-exponential heating correction of
RosemountTemperatures.calc_heating_correction, pointwise:
0.1 * exp(exp(1.171 + (log(MACHNO) + 2.738) * (-0.000568*(Q_RVSM + PS_RVSM) - 0.452))). -/
noncomputable def heating_correction_formula (machno q ps : ℝ) : ℝ :=
  0.1 * Real.exp (Real.exp (1.171 + (Real.log machno + 2.738) *
    (-0.000568 * (q + ps) - 0.452)))

/-- RosemountTemperatures.calc_heating_correction: the formula everywhere,
then corr.loc[heating_flag == 0] = 0. -/
noncomputable def calc_heating_correction (mach q ps : ℕ → ℝ)
    (prtaft : List (Option ℝ)) : List ℝ :=
  let corr := (List.range prtaft.length).map
    (fun i => heating_correction_formula (mach i) (q i) (ps i))
  List.zipWith (fun f c => if f = 0 then 0 else c) (heating_flag_filled prtaft) corr

/-- np.polyval: Horner evaluation, highest-order coefficient first. -/
def polyval (p : List ℝ) (x : ℝ) : ℝ := p.foldl (fun acc c => acc * x + c) 0

/-- Modelled from the spec: ppodd.utils.conversions.celsius_to_kelvin is not
under src; the standard additive conversion used by the temperature
modules. -/
noncomputable def celsius_to_kelvin (t : ℝ) : ℝ := t + 273.15

/-- RosemountTemperatures.calc_ndi_iat: quadratic calibration of
CORCON_ndi_temp with the CALNDT coefficients (reversed into
highest-first order for np.polyval), converted to Kelvin.  No heating
correction is applied. -/
noncomputable def calc_ndi_iat (CALNDT : List ℝ) (ndi_counts : ℕ → ℝ) (i : ℕ) : ℝ :=
  celsius_to_kelvin (polyval CALNDT.reverse (ndi_counts i))

/-- RosemountTemperatures.calc_di_iat: calibration of CORCON_di_temp with
CALDIT, converted to Kelvin, minus HEATING_CORRECTION. -/
noncomputable def calc_di_iat (CALDIT : List ℝ) (di_counts : ℕ → ℝ)
    (heating_correction : List ℝ) (i : ℕ) : ℝ :=
  celsius_to_kelvin (polyval CALDIT.reverse (di_counts i)) - heating_correction.getD i 0

theorem length_ffillAux (carry : Option ℝ) (xs : List (Option ℝ)) :
    (ffillAux carry xs).length = xs.length := by
  induction xs generalizing carry with
  | nil => rfl
  | cons x xs ih => cases x <;> simp [ffillAux, ih]

theorem length_heating_flag_filled (prtaft : List (Option ℝ)) :
    (heating_flag_filled prtaft).length = prtaft.length := by
  simp [heating_flag_filled, pad_fill, length_ffillAux]

theorem calc_heating_correction_getD (mach q ps : ℕ → ℝ)
    (prtaft : List (Option ℝ)) (i : ℕ) (hi : i < prtaft.length) :
    (calc_heating_correction mach q ps prtaft).getD i 0 =
      if (heating_flag_filled prtaft).getD i 0 = 0 then 0
      else heating_correction_formula (mach i) (q i) (ps i) := by
  have hf : i < (heating_flag_filled prtaft).length := by
    rwa [length_heating_flag_filled]
  have hr : i < ((List.range prtaft.length).map
      (fun i => heating_correction_formula (mach i) (q i) (ps i))).length := by
    simpa using hi
  have hz : i < (calc_heating_correction mach q ps prtaft).length := by
    simp only [calc_heating_correction, List.length_zipWith,
      length_heating_flag_filled, List.length_map, List.length_range]
    exact lt_min hi hi
  rw [List.getD_eq_getElem _ _ hz, List.getD_eq_getElem _ _ hf]
  simp only [calc_heating_correction, List.getElem_zipWith, List.getElem_map,
    List.getElem_range]

/-- C2: in the platinum-probe temperature module the deiced heater
self-heating correction is exactly 0 at every sample whose forward-filled
(pad, then 0) heater flag is 0, and equals the double-exponential formula
0.1*exp(exp(1.171 + (log(Mach) + 2.738)*(-0.000568*(Q_RVSM + PS_RVSM) - 0.452)))
— which is strictly positive, hence nonzero — at every sample where the
filled flag is 1; and the correction is subtracted only from the deiced
indicated temperature, the non-deiced one being a pure calibration. -/
theorem rosemount_heating_correction_cases (mach q ps : ℕ → ℝ)
    (prtaft : List (Option ℝ)) (i : ℕ) (hi : i < prtaft.length)
    (CALNDT CALDIT : List ℝ) (ndi_counts di_counts : ℕ → ℝ) :
    ((heating_flag_filled prtaft).getD i 0 = 0 →
      (calc_heating_correction mach q ps prtaft).getD i 0 = 0) ∧
    ((heating_flag_filled prtaft).getD i 0 = 1 →
      (calc_heating_correction mach q ps prtaft).getD i 0
        = heating_correction_formula (mach i) (q i) (ps i) ∧
      (calc_heating_correction mach q ps prtaft).getD i 0 ≠ 0) ∧
    calc_ndi_iat CALNDT ndi_counts i
      = celsius_to_kelvin (polyval CALNDT.reverse (ndi_counts i)) ∧
    calc_di_iat CALDIT di_counts (calc_heating_correction mach q ps prtaft) i
      = celsius_to_kelvin (polyval CALDIT.reverse (di_counts i))
        - (calc_heating_correction mach q ps prtaft).getD i 0 := by
  have key := calc_heating_correction_getD mach q ps prtaft i hi
  refine ⟨?_, ?_, rfl, rfl⟩
  · intro h0
    rw [key, if_pos h0]
  · intro h1
    rw [key, if_neg (by rw [h1]; exact one_ne_zero)]
    refine ⟨rfl, ne_of_gt ?_⟩
    have : (0:ℝ) < 0.1 := by norm_num
    exact mul_pos this (Real.exp_pos _)

/-- Witness for C2 at a concrete input: heater flag series
[some 0, none, some 1, none] forward-fills to [0, 0, 1, 1]; the correction
vanishes at sample 0 and is nonzero at sample 3. -/
theorem rosemount_heating_correction_cases_witness :
    (calc_heating_correction (fun _ => 1) (fun _ => 1) (fun _ => 1)
      [some 0, none, some 1, none]).getD 0 0 = 0 ∧
    (calc_heating_correction (fun _ => 1) (fun _ => 1) (fun _ => 1)
      [some 0, none, some 1, none]).getD 3 0 ≠ 0 :=
  ⟨(rosemount_heating_correction_cases (fun _ => 1) (fun _ => 1) (fun _ => 1)
      [some 0, none, some 1, none] 0 (by decide) [] [] (fun _ => 1) (fun _ => 1)).1 rfl,
   ((rosemount_heating_correction_cases (fun _ => 1) (fun _ => 1) (fun _ => 1)
      [some 0, none, some 1, none] 3 (by decide) [] [] (fun _ => 1) (fun _ => 1)).2.1 rfl).2⟩

/-! ### Run grouping shared by get_no_cloud_mask and flagged_avg

Both p_nevzorov.get_no_cloud_mask and ppodd.utils.utils.flagged_avg
identify maximal runs of equal values with the pandas idiom
(x != x.shift()).cumsum().  The embedding computes those cumulative group
ids recursively: the id starts at 0, and each sample increments it when
its value differs from the previous sample (the first sample always
differs from the shifted NaN). -/

/-- Group ids of (x != x.shift()).cumsum(), carrying the previous value
and the running id. -/
def gidsAux (prev : Option ℕ) (g : ℕ) : List ℕ → List ℕ
  | [] => []
  | x :: xs =>
    if some x = prev then g :: gidsAux (some x) g xs
    else (g + 1) :: gidsAux (some x) (g + 1) xs

/-- Group ids of a whole series. -/
def gids (m : List ℕ) : List ℕ := gidsAux none 0 m

/-- The value carried after consuming a list (the last element, if any). -/
def lastVal (prev : Option ℕ) : List ℕ → Option ℕ
  | [] => prev
  | x :: xs => lastVal (some x) xs

/-- The group id carried after a list of emitted ids (its last element, if
any). -/
def lastGid (g : ℕ) : List ℕ → ℕ
  | [] => g
  | x :: xs => lastGid x xs

theorem length_gidsAux (prev : Option ℕ) (g : ℕ) (xs : List ℕ) :
    (gidsAux prev g xs).length = xs.length := by
  induction xs generalizing prev g with
  | nil => rfl
  | cons x xs ih =>
    by_cases h : some x = prev <;>
      simp [gidsAux, h, ih]

theorem length_gids (m : List ℕ) : (gids m).length = m.length :=
  length_gidsAux none 0 m

theorem gidsAux_append (xs ys : List ℕ) (prev : Option ℕ) (g : ℕ) :
    gidsAux prev g (xs ++ ys) =
      gidsAux prev g xs ++
        gidsAux (lastVal prev xs) (lastGid g (gidsAux prev g xs)) ys := by
  induction xs generalizing prev g with
  | nil => rfl
  | cons x xs ih =>
    by_cases h : some x = prev
    · simp only [List.cons_append, gidsAux, if_pos h, lastVal, lastGid, List.append_eq]
      rw [ih]
    · simp only [List.cons_append, gidsAux, if_neg h, lastVal, lastGid, List.append_eq]
      rw [ih]

theorem gidsAux_ge (prev : Option ℕ) (g : ℕ) (xs : List ℕ) :
    ∀ y ∈ gidsAux prev g xs, g ≤ y := by
  induction xs generalizing prev g with
  | nil => intro y hy; simp [gidsAux] at hy
  | cons x xs ih =>
    intro y hy
    by_cases h : some x = prev
    · rw [gidsAux, if_pos h] at hy
      rcases List.mem_cons.mp hy with rfl | hy
      · exact le_refl _
      · exact ih (some x) g y hy
    · rw [gidsAux, if_neg h] at hy
      rcases List.mem_cons.mp hy with rfl | hy
      · exact Nat.le_succ g
      · exact le_trans (Nat.le_succ g) (ih (some x) (g + 1) y hy)

theorem lastGid_gidsAux_ge (prev : Option ℕ) (g : ℕ) (xs : List ℕ) :
    g ≤ lastGid g (gidsAux prev g xs) := by
  induction xs generalizing prev g with
  | nil => exact le_refl g
  | cons x xs ih =>
    by_cases h : some x = prev
    · rw [gidsAux, if_pos h, lastGid]
      exact ih (some x) g
    · rw [gidsAux, if_neg h, lastGid]
      exact le_trans (Nat.le_succ g) (ih (some x) (g + 1))

theorem gidsAux_le_lastGid (prev : Option ℕ) (g : ℕ) (xs : List ℕ) :
    ∀ y ∈ gidsAux prev g xs, y ≤ lastGid g (gidsAux prev g xs) := by
  induction xs generalizing prev g with
  | nil => intro y hy; simp [gidsAux] at hy
  | cons x xs ih =>
    intro y hy
    by_cases h : some x = prev
    · rw [gidsAux, if_pos h] at hy ⊢
      rw [lastGid]
      rcases List.mem_cons.mp hy with rfl | hy
      · exact lastGid_gidsAux_ge (some x) _ xs
      · exact ih (some x) g y hy
    · rw [gidsAux, if_neg h] at hy ⊢
      rw [lastGid]
      rcases List.mem_cons.mp hy with rfl | hy
      · exact lastGid_gidsAux_ge (some x) _ xs
      · exact ih (some x) (g + 1) y hy

theorem gidsAux_replicate_stay (b g L : ℕ) :
    gidsAux (some b) g (List.replicate L b) = List.replicate L g := by
  induction L with
  | zero => rfl
  | succ L ih => simp [List.replicate_succ, gidsAux, ih]

theorem gidsAux_run_enter (prev : Option ℕ) (g b L : ℕ)
    (hprev : some b ≠ prev) (hL : 1 ≤ L) :
    gidsAux prev g (List.replicate L b) = List.replicate L (g + 1) := by
  obtain ⟨L', rfl⟩ : ∃ L', L = L' + 1 := ⟨L - 1, by omega⟩
  simp [List.replicate_succ, gidsAux, hprev, gidsAux_replicate_stay]

theorem lastVal_replicate (prev : Option ℕ) (b L : ℕ) (hL : 1 ≤ L) :
    lastVal prev (List.replicate L b) = some b := by
  induction L generalizing prev with
  | zero => omega
  | succ L ih =>
    rw [List.replicate_succ, lastVal]
    rcases Nat.eq_zero_or_pos L with rfl | hpos
    · rfl
    · exact ih (some b) hpos

theorem lastGid_replicate (g h L : ℕ) (hL : 1 ≤ L) :
    lastGid g (List.replicate L h) = h := by
  induction L generalizing g with
  | zero => omega
  | succ L ih =>
    rw [List.replicate_succ, lastGid]
    rcases Nat.eq_zero_or_pos L with rfl | hpos
    · rfl
    · exact ih h hpos

theorem gidsAux_after_run_gt (b G : ℕ) (s : List ℕ) (hs : s.head? ≠ some b) :
    ∀ y ∈ gidsAux (some b) G s, G < y := by
  cases s with
  | nil => intro y hy; simp [gidsAux] at hy
  | cons x xs =>
    intro y hy
    have hx : some x ≠ some b := by simpa using hs
    rw [gidsAux, if_neg hx] at hy
    rcases List.mem_cons.mp hy with rfl | hy
    · exact Nat.lt_succ_self G
    · exact lt_of_lt_of_le (Nat.lt_succ_self G) (gidsAux_ge (some x) (G + 1) xs y hy)

/-- Group-id decomposition of p ++ run ++ s, where the run is a maximal run
of the value b (the last value of p and the first value of s differ from
b). -/
theorem gids_decomp (p s : List ℕ) (b L : ℕ) (hL : 1 ≤ L)
    (hp : lastVal none p ≠ some b) :
    gids (p ++ (List.replicate L b ++ s)) =
      gidsAux none 0 p ++
        (List.replicate L (lastGid 0 (gidsAux none 0 p) + 1) ++
          gidsAux (some b) (lastGid 0 (gidsAux none 0 p) + 1) s) := by
  rw [gids, gidsAux_append p (List.replicate L b ++ s) none 0]
  rw [gidsAux_append (List.replicate L b) s (lastVal none p)
    (lastGid 0 (gidsAux none 0 p))]
  rw [gidsAux_run_enter (lastVal none p) (lastGid 0 (gidsAux none 0 p)) b L
    (Ne.symm hp) hL]
  rw [lastVal_replicate (lastVal none p) b L hL]
  rw [lastGid_replicate (lastGid 0 (gidsAux none 0 p)) (lastGid 0 (gidsAux none 0 p) + 1) L hL]

/-- mask.loc[mask_groups == group].sum(): the sum of the series over the
positions whose group id is g. -/
def groupSum (g : ℕ) : List ℕ → List ℕ → ℕ
  | x :: ms, y :: hs => (if y = g then x else 0) + groupSum g ms hs
  | _, _ => 0

/-- mask.loc[mask_groups == group] = 0: zero the series over the positions
whose group id is g. -/
def zeroGroup (g : ℕ) : List ℕ → List ℕ → List ℕ
  | x :: ms, y :: hs => (if y = g then 0 else x) :: zeroGroup g ms hs
  | ms, _ => ms

theorem groupSum_append (g : ℕ) (ms1 hs1 ms2 hs2 : List ℕ)
    (h : ms1.length = hs1.length) :
    groupSum g (ms1 ++ ms2) (hs1 ++ hs2) = groupSum g ms1 hs1 + groupSum g ms2 hs2 := by
  induction ms1 generalizing hs1 with
  | nil =>
    cases hs1 with
    | nil => simp [groupSum]
    | cons y hs1 => simp at h
  | cons x ms1 ih =>
    cases hs1 with
    | nil => simp at h
    | cons y hs1 =>
      simp only [List.cons_append, groupSum, List.append_eq]
      rw [ih hs1 (by simpa using h)]
      omega

theorem groupSum_eq_zero (g : ℕ) (ms hs : List ℕ) (h : ∀ y ∈ hs, y ≠ g) :
    groupSum g ms hs = 0 := by
  induction ms generalizing hs with
  | nil => cases hs <;> rfl
  | cons x ms ih =>
    cases hs with
    | nil => rfl
    | cons y hs =>
      rw [groupSum, if_neg (h y (List.mem_cons_self y hs)),
        ih hs (fun z hz => h z (List.mem_cons_of_mem y hz))]

theorem groupSum_replicate (g b L : ℕ) :
    groupSum g (List.replicate L b) (List.replicate L g) = L * b := by
  induction L with
  | zero => simp [List.replicate, groupSum]
  | succ L ih =>
    simp only [List.replicate_succ, groupSum, ih, if_true, eq_self_iff_true]
    rw [Nat.succ_mul]
    omega

theorem length_zeroGroup (g : ℕ) (ms hs : List ℕ) :
    (zeroGroup g ms hs).length = ms.length := by
  induction ms generalizing hs with
  | nil => cases hs <;> rfl
  | cons x ms ih => cases hs with
    | nil => rfl
    | cons y hs => simp [zeroGroup, ih]

theorem zeroGroup_getD (g : ℕ) (ms hs : List ℕ) (i : ℕ)
    (hi : i < ms.length) (hih : i < hs.length) :
    (zeroGroup g ms hs).getD i 0 =
      if hs.getD i 0 = g then 0 else ms.getD i 0 := by
  induction ms generalizing hs i with
  | nil => simp at hi
  | cons x ms ih =>
    cases hs with
    | nil => simp at hih
    | cons y hs =>
      cases i with
      | zero => simp [zeroGroup]
      | succ i =>
        simp only [zeroGroup, List.getD_cons_succ]
        exact ih hs i (by simpa using hi) (by simpa using hih)

theorem groupSum_zeroGroup_ne (g h : ℕ) (ms hs : List ℕ) (hgh : h ≠ g) :
    groupSum h (zeroGroup g ms hs) hs = groupSum h ms hs := by
  induction ms generalizing hs with
  | nil => cases hs <;> rfl
  | cons x ms ih =>
    cases hs with
    | nil => rfl
    | cons y hs =>
      simp only [zeroGroup, groupSum]
      rw [ih hs]
      by_cases hy : y = h
      · subst hy
        rw [if_pos rfl, if_pos rfl, if_neg hgh]
      · rw [if_neg hy, if_neg hy]

/-- One iteration of the run-length filter loop of get_no_cloud_mask: if
the current sum of mask values over group g is below the threshold, zero
that group. -/
def runFilterStep (gsList : List ℕ) (thr : ℕ) (cur : List ℕ) (g : ℕ) : List ℕ :=
  if groupSum g cur gsList < thr then zeroGroup g cur gsList else cur

/-- get_no_cloud_mask lines 57-60: group by (mask != mask.shift()).cumsum()
and zero every group whose mask sum is below min_period * freq. -/
def run_length_filter (thr : ℕ) (m : List ℕ) : List ℕ :=
  (gids m).dedup.foldl (runFilterStep (gids m) thr) m

theorem length_runFilterStep (gsList : List ℕ) (thr : ℕ) (cur : List ℕ) (g : ℕ) :
    (runFilterStep gsList thr cur g).length = cur.length := by
  rw [runFilterStep]
  split
  · exact length_zeroGroup g cur gsList
  · rfl

theorem runFilter_foldl_getD (gsList : List ℕ) (thr : ℕ) (l : List ℕ)
    (hnd : l.Nodup) (cur : List ℕ) (hlen : gsList.length = cur.length)
    (i : ℕ) (hi : i < cur.length) :
    (l.foldl (runFilterStep gsList thr) cur).getD i 0 =
      if gsList.getD i 0 ∈ l ∧ groupSum (gsList.getD i 0) cur gsList < thr
      then 0 else cur.getD i 0 := by
  induction l generalizing cur with
  | nil =>
    simp only [List.foldl_nil, List.not_mem_nil, false_and, if_false]
  | cons g rest ih =>
    have hnd' : rest.Nodup := (List.nodup_cons.mp hnd).2
    have hgnr : g ∉ rest := (List.nodup_cons.mp hnd).1
    have hlen' : gsList.length = (runFilterStep gsList thr cur g).length := by
      rw [length_runFilterStep]; exact hlen
    have hi' : i < (runFilterStep gsList thr cur g).length := by
      rw [length_runFilterStep]; exact hi
    rw [List.foldl_cons, ih hnd' (runFilterStep gsList thr cur g) hlen' hi']
    by_cases hgd : gsList.getD i 0 = g
    · rw [hgd]
      rw [if_neg (fun hc => hgnr hc.1)]
      rw [runFilterStep]
      by_cases hsum : groupSum g cur gsList < thr
      · rw [if_pos hsum]
        rw [if_pos ⟨List.mem_cons_self g rest, hsum⟩]
        rw [zeroGroup_getD g cur gsList i hi (by omega)]
        rw [if_pos hgd]
      · rw [if_neg hsum, if_neg (fun hc => hsum hc.2)]
    · have hcur : (runFilterStep gsList thr cur g).getD i 0 = cur.getD i 0 := by
        rw [runFilterStep]
        split
        · rw [zeroGroup_getD g cur gsList i hi (by omega), if_neg hgd]
        · rfl
      have hsum : groupSum (gsList.getD i 0) (runFilterStep gsList thr cur g) gsList
          = groupSum (gsList.getD i 0) cur gsList := by
        rw [runFilterStep]
        split
        · exact groupSum_zeroGroup_ne g (gsList.getD i 0) cur gsList hgd
        · rfl
      rw [hcur, hsum]
      have hiff : (gsList.getD i 0 ∈ rest ∧ groupSum (gsList.getD i 0) cur gsList < thr) ↔
          (gsList.getD i 0 ∈ g :: rest ∧ groupSum (gsList.getD i 0) cur gsList < thr) := by
        constructor
        · rintro ⟨h1, h2⟩
          exact ⟨List.mem_cons_of_mem g h1, h2⟩
        · rintro ⟨h1, h2⟩
          rcases List.mem_cons.mp h1 with h1 | h1
          · exact absurd h1 hgd
          · exact ⟨h1, h2⟩
      exact if_congr hiff rfl rfl

/-- Elementwise characterization of the run-length filter: a sample is
zeroed exactly when the mask sum over its own group is below the
threshold. -/
theorem run_length_filter_getD (thr : ℕ) (m : List ℕ) (i : ℕ) (hi : i < m.length) :
    (run_length_filter thr m).getD i 0 =
      if groupSum ((gids m).getD i 0) m (gids m) < thr then 0 else m.getD i 0 := by
  have hig : i < (gids m).length := by rw [length_gids]; exact hi
  have hmem : (gids m).getD i 0 ∈ (gids m).dedup := by
    rw [List.getD_eq_getElem _ _ hig]
    exact List.mem_dedup.mpr (List.getElem_mem hig)
  rw [run_length_filter,
    runFilter_foldl_getD (gids m) thr (gids m).dedup (List.nodup_dedup _) m
      (length_gids m) i hi]
  by_cases hS : groupSum ((gids m).getD i 0) m (gids m) < thr
  · rw [if_pos ⟨hmem, hS⟩, if_pos hS]
  · rw [if_neg (fun hc => hS hc.2), if_neg hS]

/-! ### ppodd.pod.p_nevzorov.get_no_cloud_mask

The claims start from the rolling-window range test already collapsed to a
per-sample 0/1 value (the mask after line 51 of p_nevzorov.py).  Line 54
zeroes the mask where the weight-on-wheels input equals 1 (by Python
precedence the source condition wow == 1 | np.isnan(wow) evaluates
elementwise to wow == 1, since 1 | isnan is an all-ones array), and lines
57-60 zero every group of the grouped mask whose sum is below
min_period * freq. -/

/-- get_no_cloud_mask line 54: mask.loc[wow == 1] = 0 (see above). -/
def apply_wow (mask wow : List ℕ) : List ℕ :=
  List.zipWith (fun mk w => if w = 1 then 0 else mk) mask wow

/-- get_no_cloud_mask from the collapsed rolling mask on: the
weight-on-wheels zeroing followed by the minimum-duration run filter with
threshold min_period * freq. -/
def get_no_cloud_mask (min_period freq : ℕ) (collapsed wow : List ℕ) : List ℕ :=
  run_length_filter (min_period * freq) (apply_wow collapsed wow)

theorem length_foldl_runFilterStep (gsList : List ℕ) (thr : ℕ) (l cur : List ℕ) :
    (l.foldl (runFilterStep gsList thr) cur).length = cur.length := by
  induction l generalizing cur with
  | nil => rfl
  | cons g rest ih =>
    rw [List.foldl_cons, ih, length_runFilterStep]

theorem length_run_length_filter (thr : ℕ) (m : List ℕ) :
    (run_length_filter thr m).length = m.length :=
  length_foldl_runFilterStep (gids m) thr (gids m).dedup m

theorem gids_run_getD (p s : List ℕ) (b L : ℕ) (hL : 1 ≤ L)
    (hp : lastVal none p ≠ some b) (j : ℕ) (hj : j < L) :
    (gids (p ++ (List.replicate L b ++ s))).getD (p.length + j) 0 =
      lastGid 0 (gidsAux none 0 p) + 1 := by
  rw [gids_decomp p s b L hL hp]
  rw [List.getD_append_right _ _ _ _ (by rw [length_gidsAux]; omega)]
  rw [length_gidsAux]
  have : p.length + j - p.length = j := by omega
  rw [this]
  rw [List.getD_append _ _ _ _ (by simpa using hj)]
  rw [List.getD_eq_getElem _ _ (by simpa using hj), List.getElem_replicate]

theorem run_values_getD (p s : List ℕ) (b L : ℕ) (j : ℕ) (hj : j < L) :
    (p ++ (List.replicate L b ++ s)).getD (p.length + j) 0 = b := by
  rw [List.getD_append_right _ _ _ _ (by omega)]
  have : p.length + j - p.length = j := by omega
  rw [this]
  rw [List.getD_append _ _ _ _ (by simpa using hj)]
  rw [List.getD_eq_getElem _ _ (by simpa using hj), List.getElem_replicate]

theorem groupSum_run (p s : List ℕ) (b L : ℕ) (hL : 1 ≤ L)
    (hp : lastVal none p ≠ some b) (hs : s.head? ≠ some b) :
    groupSum (lastGid 0 (gidsAux none 0 p) + 1)
      (p ++ (List.replicate L b ++ s))
      (gids (p ++ (List.replicate L b ++ s))) = L * b := by
  set G := lastGid 0 (gidsAux none 0 p) + 1 with hG
  rw [gids_decomp p s b L hL hp]
  rw [groupSum_append _ _ _ _ _ (length_gidsAux none 0 p).symm]
  rw [groupSum_append _ _ _ _ _ (by simp)]
  rw [groupSum_eq_zero G p (gidsAux none 0 p) ?_]
  · rw [groupSum_eq_zero G s (gidsAux (some b) G s) ?_]
    · rw [groupSum_replicate]
      omega
    · intro y hy
      exact Nat.ne_of_gt (gidsAux_after_run_gt b G s hs y hy)
  · intro y hy
    have := gidsAux_le_lastGid none 0 p y hy
    omega

/-- Core of the minimum-duration filter on one maximal run: the run segment
is zeroed when its mask sum is below the threshold and kept when it is
not. -/
theorem run_length_filter_segment (thr : ℕ) (p s : List ℕ) (b L : ℕ)
    (hL : 1 ≤ L) (hp : lastVal none p ≠ some b) (hs : s.head? ≠ some b) :
    ((run_length_filter thr (p ++ (List.replicate L b ++ s))).drop p.length).take L
      = if L * b < thr then List.replicate L 0 else List.replicate L b := by
  set m := p ++ (List.replicate L b ++ s) with hm
  have hmlen : m.length = p.length + (L + s.length) := by simp [hm]
  have houtlen : (run_length_filter thr m).length = m.length :=
    length_run_length_filter thr m
  have helem : ∀ j, j < L →
      (run_length_filter thr m).getD (p.length + j) 0 =
        if L * b < thr then 0 else b := by
    intro j hj
    have hidx : p.length + j < m.length := by omega
    rw [run_length_filter_getD thr m (p.length + j) hidx]
    rw [hm, gids_run_getD p s b L hL hp j hj, groupSum_run p s b L hL hp hs,
      run_values_getD p s b L j hj]
  have hseglen : (((run_length_filter thr m).drop p.length).take L).length = L := by
    simp only [List.length_take, List.length_drop, houtlen, hmlen]
    omega
  by_cases hshort : L * b < thr
  · rw [if_pos hshort]
    refine List.ext_getElem (by simpa using hseglen) ?_
    intro j hj1 hj2
    have hjL : j < L := by simpa using hj2
    rw [List.getElem_take, List.getElem_drop, List.getElem_replicate]
    have := helem j hjL
    rw [if_pos hshort] at this
    rw [← this, List.getD_eq_getElem _ _ (by omega)]
  · rw [if_neg hshort]
    refine List.ext_getElem (by simpa using hseglen) ?_
    intro j hj1 hj2
    have hjL : j < L := by simpa using hj2
    rw [List.getElem_take, List.getElem_drop, List.getElem_replicate]
    have := helem j hjL
    rw [if_neg hshort] at this
    rw [← this, List.getD_eq_getElem _ _ (by omega)]

/-- C4: in the clear-air mask computation, once the rolling-window range
test is collapsed to a per-sample 0/1 value and the weight-on-wheels
zeroing applied, every maximal run whose total of mask values is below
min_period * freq is set entirely to 0, every run of 1s with total at
least min_period * freq is preserved unchanged, and the final mask is 0 at
every sample where the weight-on-wheels input equals 1. -/
theorem get_no_cloud_mask_runs (min_period freq : ℕ) (collapsed wow : List ℕ)
    (p s : List ℕ) (b L : ℕ) (hL : 1 ≤ L)
    (hp : lastVal none p ≠ some b) (hs : s.head? ≠ some b)
    (hdecomp : apply_wow collapsed wow = p ++ (List.replicate L b ++ s)) :
    (L * b < min_period * freq →
      ((get_no_cloud_mask min_period freq collapsed wow).drop p.length).take L
        = List.replicate L 0) ∧
    (b = 1 → min_period * freq ≤ L →
      ((get_no_cloud_mask min_period freq collapsed wow).drop p.length).take L
        = List.replicate L 1) ∧
    (∀ i, i < (apply_wow collapsed wow).length → wow.getD i 0 = 1 →
      (get_no_cloud_mask min_period freq collapsed wow).getD i 0 = 0) := by
  refine ⟨?_, ?_, ?_⟩
  · intro hshort
    rw [get_no_cloud_mask, hdecomp,
      run_length_filter_segment (min_period * freq) p s b L hL hp hs,
      if_pos hshort]
  · rintro rfl hlong
    rw [get_no_cloud_mask, hdecomp,
      run_length_filter_segment (min_period * freq) p s 1 L hL hp hs,
      if_neg (by omega)]
  · intro i hi hwow
    have hiw : i < wow.length := by
      simp only [apply_wow, List.length_zipWith] at hi
      omega
    have him : i < collapsed.length := by
      simp only [apply_wow, List.length_zipWith] at hi
      omega
    have hm0 : (apply_wow collapsed wow).getD i 0 = 0 := by
      rw [List.getD_eq_getElem _ _ hi]
      simp only [apply_wow, List.getElem_zipWith]
      rw [← List.getD_eq_getElem wow 0 hiw, hwow]
      simp
    rw [get_no_cloud_mask, run_length_filter_getD _ _ i hi]
    split
    · rfl
    · exact hm0

/-- Witness for C4 at a concrete input: with min_period = 2, freq = 1,
collapsed mask [1,0,1,1,1] and weight-on-wheels [1,0,0,0,0], the
weight-on-wheels zeroing gives [0,0,1,1,1]; the trailing run of three 1s
meets the threshold 2 and is preserved, and sample 0 (on ground) is 0. -/
theorem get_no_cloud_mask_runs_witness :
    ((get_no_cloud_mask 2 1 [1,0,1,1,1] [1,0,0,0,0]).drop 2).take 3
        = List.replicate 3 1 ∧
    (get_no_cloud_mask 2 1 [1,0,1,1,1] [1,0,0,0,0]).getD 0 0 = 0 :=
  ⟨(get_no_cloud_mask_runs 2 1 [1,0,1,1,1] [1,0,0,0,0] [0,0] [] 1 3
      (by decide) (by decide) (by decide) (by decide)).2.1 rfl (by decide),
   (get_no_cloud_mask_runs 2 1 [1,0,1,1,1] [1,0,0,0,0] [0,0] [] 1 3
      (by decide) (by decide) (by decide) (by decide)).2.2 0 (by decide) (by decide)⟩

/-! ### ppodd.utils.utils.flagged_avg

flagged_avg groups the frame by (flag != flag.shift()).cumsum(), drops the
groups whose flag value is not flag_value, takes the mean of
data.iloc[skip_start : len - skip_end] in each remaining group, and (with
interp=False) writes each mean at the position index[len(group) / 2] of
its group, leaving NaN elsewhere.  The embedding is the elementwise
reading of those lines: output[i] holds the skipped mean of the group of
i exactly when flag[i] == flag_value and i is the midpoint position of
that group, and is undefined otherwise.  The flag column is assumed free
of NaN (the fillna of line 100-103 is then the identity), and data slices
are assumed inside the run (iloc with a nonnegative stop), as in every
use in the source. -/

/-- The positions of the samples belonging to group g. -/
def groupPositions (gs : List ℕ) (g : ℕ) : List ℕ :=
  (List.range gs.length).filter (fun i => gs.getD i 0 = g)

/-- flagged_avg with interp=False (ppodd/utils/utils.py lines 95-132). -/
def flagged_avg (flag_value skip_start skip_end : ℕ)
    (flag : List ℕ) (data : List ℚ) : List (Option ℚ) :=
  (List.range flag.length).map (fun i =>
    if flag.getD i 0 = flag_value then
      let P := groupPositions (gids flag) ((gids flag).getD i 0)
      if i = P.getD (P.length / 2) 0 then
        let Q := (P.drop skip_start).take (P.length - skip_end - skip_start)
        if Q.isEmpty then none
        else some ((Q.map (fun j => data.getD j 0)).sum / (Q.length : ℚ))
      else none
    else none)

theorem gids_before_run_getD (p s : List ℕ) (b L : ℕ) (hL : 1 ≤ L)
    (hp : lastVal none p ≠ some b) (i : ℕ) (hi : i < p.length) :
    (gids (p ++ (List.replicate L b ++ s))).getD i 0 <
      lastGid 0 (gidsAux none 0 p) + 1 := by
  rw [gids_decomp p s b L hL hp]
  rw [List.getD_append _ _ _ _ (by rw [length_gidsAux]; omega)]
  have hiA : i < (gidsAux none 0 p).length := by rw [length_gidsAux]; omega
  rw [List.getD_eq_getElem _ _ hiA]
  have := gidsAux_le_lastGid none 0 p _ (List.getElem_mem hiA)
  omega

theorem gids_after_run_getD (p s : List ℕ) (b L : ℕ) (hL : 1 ≤ L)
    (hp : lastVal none p ≠ some b) (hs : s.head? ≠ some b)
    (k : ℕ) (hk : k < s.length) :
    lastGid 0 (gidsAux none 0 p) + 1 <
      (gids (p ++ (List.replicate L b ++ s))).getD (p.length + L + k) 0 := by
  set G := lastGid 0 (gidsAux none 0 p) + 1 with hG
  rw [gids_decomp p s b L hL hp]
  rw [List.getD_append_right _ _ _ _ (by rw [length_gidsAux]; omega)]
  rw [length_gidsAux]
  rw [List.getD_append_right _ _ _ _ (by simp; omega)]
  have hidx : p.length + L + k - p.length - (List.replicate L G).length = k := by
    simp; omega
  rw [hidx]
  have hkC : k < (gidsAux (some b) G s).length := by rw [length_gidsAux]; omega
  rw [List.getD_eq_getElem _ _ hkC]
  exact gidsAux_after_run_gt b G s hs _ (List.getElem_mem hkC)

/-- The group of the run is exactly the contiguous index block
[p.length, p.length + L). -/
theorem groupPositions_run (p s : List ℕ) (b L : ℕ) (hL : 1 ≤ L)
    (hp : lastVal none p ≠ some b) (hs : s.head? ≠ some b) :
    groupPositions (gids (p ++ (List.replicate L b ++ s)))
        (lastGid 0 (gidsAux none 0 p) + 1) =
      List.range' p.length L := by
  set m := p ++ (List.replicate L b ++ s) with hm
  set G := lastGid 0 (gidsAux none 0 p) + 1 with hG
  have hlen : (gids m).length = p.length + (L + s.length) := by
    rw [length_gids]; simp [hm]
  rw [groupPositions, hlen, List.range_add, List.range_add, List.map_append,
    List.map_map, List.filter_append, List.filter_append]
  have h1 : (List.range p.length).filter (fun i => (gids m).getD i 0 = G) = [] := by
    refine List.filter_eq_nil_iff.mpr ?_
    intro i hi
    have hip : i < p.length := List.mem_range.mp hi
    have hlt := gids_before_run_getD p s b L hL hp i hip
    rw [← hm, ← hG] at hlt
    simp only [decide_eq_true_eq]
    omega
  have h2 : ((List.range L).map (p.length + ·)).filter
      (fun i => (gids m).getD i 0 = G) = (List.range L).map (p.length + ·) := by
    refine List.filter_eq_self.mpr ?_
    intro i hi
    obtain ⟨j, hj, rfl⟩ := List.mem_map.mp hi
    have hjL : j < L := List.mem_range.mp hj
    simp only [decide_eq_true_eq]
    exact gids_run_getD p s b L hL hp j hjL
  have h3 : ((List.range s.length).map ((p.length + ·) ∘ (L + ·))).filter
      (fun i => (gids m).getD i 0 = G) = [] := by
    refine List.filter_eq_nil_iff.mpr ?_
    intro i hi
    obtain ⟨k, hk, rfl⟩ := List.mem_map.mp hi
    have hks : k < s.length := List.mem_range.mp hk
    have hgt := gids_after_run_getD p s b L hL hp hs k hks
    rw [← hm, ← hG] at hgt
    simp only [Function.comp_apply, decide_eq_true_eq]
    have harith : p.length + (L + k) = p.length + L + k := by omega
    rw [harith]
    omega
  rw [h1, h2, h3, List.nil_append, List.append_nil, List.range'_eq_map_range]

theorem map_getD_range' (data : List ℚ) (c k : ℕ) (h : c + k ≤ data.length) :
    (List.range' c k).map (fun j => data.getD j 0) = (data.drop c).take k := by
  refine List.ext_getElem ?_ ?_
  · simp only [List.length_map, List.length_range', List.length_take,
      List.length_drop]
    omega
  · intro t ht1 ht2
    have htk : t < k := by simpa using ht1
    have htr : t < (List.range' c k).length := by
      simp only [List.length_range']
      omega
    rw [List.getElem_map, List.getElem_take, List.getElem_drop]
    have hrt : (List.range' c k)[t] = c + t := by simp [List.getElem_range']
    rw [hrt, List.getD_eq_getElem _ _ (by omega)]

theorem range'_drop_take (a L s k : ℕ) (hsk : s + k ≤ L) :
    ((List.range' a L).drop s).take k = List.range' (a + s) k := by
  have h1 : List.range' a L = List.range' a s ++ List.range' (a + s) (L - s) := by
    have hh := List.range'_append a s (L - s) 1
    simp only [one_mul] at hh
    rw [hh]
    congr 1
    omega
  have h2 : List.range' (a + s) (L - s) =
      List.range' (a + s) k ++ List.range' (a + s + k) (L - s - k) := by
    have hh := List.range'_append (a + s) k (L - s - k) 1
    simp only [one_mul] at hh
    rw [hh]
    congr 1
    omega
  have hds : (List.range' a s).length = s := List.length_range' ..
  have hdk : (List.range' (a + s) k).length = k := List.length_range' ..
  rw [h1, List.drop_left' hds, h2, List.take_left' hdk]

/-- Grouped averaging over one maximal flagged run: midpoint value, other
positions of the run, and non-flagged positions. -/
theorem flagged_avg_run_aux (flag_value skip_start skip_end : ℕ) (p s : List ℕ)
    (L : ℕ) (data : List ℚ) (hL : 1 ≤ L)
    (hp : lastVal none p ≠ some flag_value) (hs : s.head? ≠ some flag_value)
    (hdata : data.length = (p ++ (List.replicate L flag_value ++ s)).length)
    (hskip : skip_start + skip_end < L) :
    ((flagged_avg flag_value skip_start skip_end
        (p ++ (List.replicate L flag_value ++ s)) data).getD (p.length + L / 2) none
      = some (((data.drop (p.length + skip_start)).take (L - skip_end - skip_start)).sum
          / ((L - skip_end - skip_start : ℕ) : ℚ))) ∧
    (∀ j, j < L → j ≠ L / 2 →
      (flagged_avg flag_value skip_start skip_end
        (p ++ (List.replicate L flag_value ++ s)) data).getD (p.length + j) none = none) ∧
    (∀ i, i < (p ++ (List.replicate L flag_value ++ s)).length →
      (p ++ (List.replicate L flag_value ++ s)).getD i 0 ≠ flag_value →
      (flagged_avg flag_value skip_start skip_end
        (p ++ (List.replicate L flag_value ++ s)) data).getD i none = none) := by
  set m := p ++ (List.replicate L flag_value ++ s) with hm
  set G := lastGid 0 (gidsAux none 0 p) + 1 with hG
  have hmlen : m.length = p.length + (L + s.length) := by simp [hm]
  have hbody : ∀ i, i < m.length →
      (flagged_avg flag_value skip_start skip_end m data).getD i none =
        if m.getD i 0 = flag_value then
          if i = (groupPositions (gids m) ((gids m).getD i 0)).getD
              ((groupPositions (gids m) ((gids m).getD i 0)).length / 2) 0 then
            if (((groupPositions (gids m) ((gids m).getD i 0)).drop skip_start).take
                ((groupPositions (gids m) ((gids m).getD i 0)).length - skip_end - skip_start)).isEmpty
            then none
            else some (((((groupPositions (gids m) ((gids m).getD i 0)).drop skip_start).take
                ((groupPositions (gids m) ((gids m).getD i 0)).length - skip_end - skip_start)).map
                  (fun j => data.getD j 0)).sum /
                (((((groupPositions (gids m) ((gids m).getD i 0)).drop skip_start).take
                ((groupPositions (gids m) ((gids m).getD i 0)).length - skip_end - skip_start)).length : ℕ) : ℚ))
          else none
        else none := by
    intro i hi
    have hilen : i < (flagged_avg flag_value skip_start skip_end m data).length := by
      simp [flagged_avg, hi]
    rw [List.getD_eq_getElem _ _ hilen]
    simp only [flagged_avg, List.getElem_map, List.getElem_range]
  refine ⟨?_, ?_, ?_⟩
  · have hj2 : L / 2 < L := Nat.div_lt_self (by omega) (by omega)
    have hidx : p.length + L / 2 < m.length := by omega
    rw [hbody _ hidx]
    have hflagv : m.getD (p.length + L / 2) 0 = flag_value := by
      rw [hm]; exact run_values_getD p s flag_value L (L / 2) hj2
    have hgid : (gids m).getD (p.length + L / 2) 0 = G := by
      rw [hm, hG]; exact gids_run_getD p s flag_value L hL hp (L / 2) hj2
    rw [hflagv, if_pos rfl, hgid]
    have hP : groupPositions (gids m) G = List.range' p.length L := by
      rw [hm, hG]; exact groupPositions_run p s flag_value L hL hp hs
    rw [hP]
    have hPlen : (List.range' p.length L).length = L := List.length_range' ..
    rw [hPlen]
    have hmid : (List.range' p.length L).getD (L / 2) 0 = p.length + L / 2 := by
      rw [List.getD_eq_getElem _ _ (by rw [hPlen]; exact hj2)]
      simp [List.getElem_range']
    rw [hmid, if_pos rfl]
    have hQ : ((List.range' p.length L).drop skip_start).take (L - skip_end - skip_start)
        = List.range' (p.length + skip_start) (L - skip_end - skip_start) := by
      exact range'_drop_take p.length L skip_start (L - skip_end - skip_start) (by omega)
    rw [hQ]
    have hQne : ¬ (List.range' (p.length + skip_start)
        (L - skip_end - skip_start)).isEmpty = true := by
      intro hcontra
      rw [List.isEmpty_iff] at hcontra
      have hlenz := congrArg List.length hcontra
      simp only [List.length_range', List.length_nil] at hlenz
      omega
    rw [if_neg hQne]
    rw [map_getD_range' data (p.length + skip_start) (L - skip_end - skip_start)
      (by rw [hdata]; omega)]
    rw [List.length_range']
  · intro j hjL hjne
    have hidx : p.length + j < m.length := by omega
    rw [hbody _ hidx]
    have hflagv : m.getD (p.length + j) 0 = flag_value := by
      rw [hm]; exact run_values_getD p s flag_value L j hjL
    have hgid : (gids m).getD (p.length + j) 0 = G := by
      rw [hm, hG]; exact gids_run_getD p s flag_value L hL hp j hjL
    rw [hflagv, if_pos rfl, hgid]
    have hP : groupPositions (gids m) G = List.range' p.length L := by
      rw [hm, hG]; exact groupPositions_run p s flag_value L hL hp hs
    rw [hP]
    have hPlen : (List.range' p.length L).length = L := List.length_range' ..
    rw [hPlen]
    have hj2 : L / 2 < L := Nat.div_lt_self (by omega) (by omega)
    have hmid : (List.range' p.length L).getD (L / 2) 0 = p.length + L / 2 := by
      rw [List.getD_eq_getElem _ _ (by rw [hPlen]; exact hj2)]
      simp [List.getElem_range']
    rw [hmid, if_neg (by omega)]
  · intro i hi hne
    rw [hbody _ hi, if_neg hne]

/-- C5: flagged-run grouped averaging with interp off.  Over a maximal run
of flag_value of length L starting at position p.length, the output holds,
at the runs midpoint position p.length + L/2, the mean of the data over
the run with the first skip_start and last skip_end samples excluded; the
output is undefined at every other position of the run and at every sample
whose flag differs from flag_value; and in particular a flagged run with
data [1,2,3,4,5] and skip_start = skip_end = 1 yields the value 3 at the
runs midpoint. -/
theorem flagged_avg_run (flag_value skip_start skip_end : ℕ) (p s : List ℕ)
    (L : ℕ) (data : List ℚ) (hL : 1 ≤ L)
    (hp : lastVal none p ≠ some flag_value) (hs : s.head? ≠ some flag_value)
    (hdata : data.length = (p ++ (List.replicate L flag_value ++ s)).length)
    (hskip : skip_start + skip_end < L) :
    ((flagged_avg flag_value skip_start skip_end
        (p ++ (List.replicate L flag_value ++ s)) data).getD (p.length + L / 2) none
      = some (((data.drop (p.length + skip_start)).take (L - skip_end - skip_start)).sum
          / ((L - skip_end - skip_start : ℕ) : ℚ))) ∧
    (∀ j, j < L → j ≠ L / 2 →
      (flagged_avg flag_value skip_start skip_end
        (p ++ (List.replicate L flag_value ++ s)) data).getD (p.length + j) none = none) ∧
    (∀ i, i < (p ++ (List.replicate L flag_value ++ s)).length →
      (p ++ (List.replicate L flag_value ++ s)).getD i 0 ≠ flag_value →
      (flagged_avg flag_value skip_start skip_end
        (p ++ (List.replicate L flag_value ++ s)) data).getD i none = none) ∧
    (flagged_avg 1 1 1 [1,1,1,1,1] [1,2,3,4,5]).getD 2 none = some 3 := by
  obtain ⟨h1, h2, h3⟩ :=
    flagged_avg_run_aux flag_value skip_start skip_end p s L data hL hp hs hdata hskip
  refine ⟨h1, h2, h3, ?_⟩
  have hx := (flagged_avg_run_aux 1 1 1 [] [] 5 [1,2,3,4,5] (by decide) (by decide)
    (by decide) (by decide) (by decide)).1
  refine hx.trans ?_
  norm_num

/-- Witness for C5: a run of five 1s framed by other flag values, with the
spec example embedded in the final conjunct. -/
theorem flagged_avg_run_witness :
    ((flagged_avg 1 1 1 ([0] ++ (List.replicate 5 1 ++ [2])) [10,1,2,3,4,5,20]).getD
        (List.length ([0] : List ℕ) + 5 / 2) none
      = some (((([10,1,2,3,4,5,20] : List ℚ).drop (List.length ([0] : List ℕ) + 1)).take
          (5 - 1 - 1)).sum / ((5 - 1 - 1 : ℕ) : ℚ))) ∧
    (flagged_avg 1 1 1 [1,1,1,1,1] [1,2,3,4,5]).getD 2 none = some 3 :=
  ⟨(flagged_avg_run 1 1 1 [0] [2] 5 [10,1,2,3,4,5,20] (by decide) (by decide)
      (by decide) (by decide) (by decide)).1,
   (flagged_avg_run 1 1 1 [0] [2] 5 [10,1,2,3,4,5,20] (by decide) (by decide)
      (by decide) (by decide) (by decide)).2.2.2⟩

/-! ### ppodd.pod.p_nevzorov.Nevzorov.process: fit-failure handling

For each sensor, process computes collector and reference power, then
tries get_fitted_k (a scipy nonlinear least-squares fit, outside the
repository); RuntimeError and ValueError are caught, in which case
fitted_K = 0 and fit_success = False.  The Except parameter stands for
that try/except outcome, so the embedding is total: no failure escapes
the loop body. -/

/-- A DecadesVariable as created in the Nevzorov loop body: its name, its
write attribute (True by default, cleared to suppress persisting) and its
data series. -/
structure NevVar where
  name : String
  write : Bool
  data : ℕ → ℚ

/-- One sensor iteration of Nevzorov.process from the computed powers on:
w_c = (col_p - fitted_K * ref_p) / (TAS * area * nvl) with write = False
when the fit failed, w_u = (col_p - K * ref_p) / (TAS * area * nvl)
always written, and the collector power passthrough. -/
def nevzorov_sensor_outputs (fit : Except Unit (ℕ → ℚ)) (K area nvl : ℚ)
    (col_p ref_p tas : ℕ → ℚ) (ins : String) : List NevVar :=
  let fitted_K : ℕ → ℚ :=
    match fit with
    | Except.ok fk => fk
    | Except.error _ => fun _ => 0
  let fit_success : Bool :=
    match fit with
    | Except.ok _ => true
    | Except.error _ => false
  let w_c : NevVar :=
    { name := "NV_" ++ ins ++ "_C", write := fit_success,
      data := fun i => (col_p i - fitted_K i * ref_p i) / (tas i * area * nvl) }
  let w_u : NevVar :=
    { name := "NV_" ++ ins ++ "_U", write := true,
      data := fun i => (col_p i - K * ref_p i) / (tas i * area * nvl) }
  let col_power : NevVar :=
    { name := "NV_" ++ ins ++ "_COL_P", write := true, data := col_p }
  [w_c, w_u, col_power]

/-- C6: if the baseline fit raises, the Nevzorov loop body still returns
its outputs (the failure is absorbed, not propagated): the uncorrected
variable is present, computed with the constant K from the flight
constants, and still written, while the corrected variable is marked not
to be persisted; if the fit succeeds, both corrected (using the fitted K
series) and uncorrected variables are written. -/
theorem nevzorov_fit_failure_handling (K area nvl : ℚ)
    (col_p ref_p tas : ℕ → ℚ) (ins : String) (fk : ℕ → ℚ) (i : ℕ) :
    ((nevzorov_sensor_outputs (Except.error ()) K area nvl col_p ref_p tas ins).length = 3) ∧
    (((nevzorov_sensor_outputs (Except.error ()) K area nvl col_p ref_p tas ins)[0]?).map
        NevVar.write = some false) ∧
    (((nevzorov_sensor_outputs (Except.error ()) K area nvl col_p ref_p tas ins)[0]?).map
        NevVar.name = some ("NV_" ++ ins ++ "_C")) ∧
    (((nevzorov_sensor_outputs (Except.error ()) K area nvl col_p ref_p tas ins)[1]?).map
        NevVar.write = some true) ∧
    (((nevzorov_sensor_outputs (Except.error ()) K area nvl col_p ref_p tas ins)[1]?).map
        NevVar.name = some ("NV_" ++ ins ++ "_U")) ∧
    (((nevzorov_sensor_outputs (Except.error ()) K area nvl col_p ref_p tas ins)[1]?).map
        (fun v => v.data i) = some ((col_p i - K * ref_p i) / (tas i * area * nvl))) ∧
    (((nevzorov_sensor_outputs (Except.ok fk) K area nvl col_p ref_p tas ins)[0]?).map
        NevVar.write = some true) ∧
    (((nevzorov_sensor_outputs (Except.ok fk) K area nvl col_p ref_p tas ins)[0]?).map
        (fun v => v.data i) = some ((col_p i - fk i * ref_p i) / (tas i * area * nvl))) ∧
    (((nevzorov_sensor_outputs (Except.ok fk) K area nvl col_p ref_p tas ins)[1]?).map
        NevVar.write = some true) :=
  ⟨rfl, rfl, rfl, rfl, rfl, rfl, rfl, rfl, rfl⟩

/-! ### ppodd.pod.p_tei_ozone: the TeiOzone module

TeiOzone.flag normalizes the per-sample status string (fillna to the
empty string, lowercase, empty replaced by the number 3, which numpy
stores as the string 3 in the string array), builds the two
presence-guarded nominal-code masks, unions them into STATUS_FLAG, then
applies the threshold assignments of lines 56-59 in order.  Line 58 reads
d.loc[d.TEIOZO_FlowB < FLOW_THRESHOLD] = 1 with no column selector: it
assigns 1 to EVERY column of those rows, unlike the flow-A line 57 which
assigns only to FLOW_FLAG.  process then emits d.TEIOZO_conc as O3_TECO
and attaches STATUS_FLAG as the instrument_alarm mask. -/

/-- ASCII lowercasing of one character, as Python str.lower acts on the
instrument status codes. -/
def lowerChar (c : Char) : Char :=
  if 65 ≤ c.toNat ∧ c.toNat ≤ 90 then Char.ofNat (c.toNat + 32) else c

/-- Python str.lower over the status strings (ASCII range). -/
def pyLower (s : String) : String := String.mk (s.data.map lowerChar)

/-- TeiOzone.flag lines 44-47: status strings lowercased, the empty
(missing) entries replaced by the stringified number 3. -/
def tei_status_norm (status : List String) : List String :=
  (status.map pyLower).map (fun s => if s = "" then "3" else s)

/-- TeiOzone.flag lines 48-54: each nominal code contributes a
disequality mask only when that code occurs somewhere in the normalized
series (the STATUS_FLAG1/2 columns stay all-zero otherwise); STATUS_FLAG
is the elementwise union of the two. -/
def tei_status_mask (status : List String) : List Bool :=
  let flag := tei_status_norm status
  let f1 := if "1c100000" ∈ flag
            then flag.map (fun sv => decide (sv ≠ "1c100000"))
            else List.replicate flag.length false
  let f2 := if "0c100000" ∈ flag
            then flag.map (fun sv => decide (sv ≠ "0c100000"))
            else List.replicate flag.length false
  List.zipWith or f1 f2

/-- The TeiOzone working frame after get_dataframe, with the flag columns
the module creates.  The status column is modelled post-fillna, so a
missing status is the empty string. -/
structure OzoneFrame where
  TEIOZO_conc : List ℚ
  TEIOZO_FlowA : List ℚ
  TEIOZO_FlowB : List ℚ
  WOW_IND : List ℚ
  TEIOZO_flag : List String
  STATUS_FLAG : List Bool
  STATUS_FLAG1 : List Bool
  STATUS_FLAG2 : List Bool
  CONC_FLAG : List ℚ
  FLOW_FLAG : List ℚ
  WOW_FLAG : List ℚ

/-- FLOW_THRESHOLD = 0.5 (TeiOzone.flag). -/
def FLOW_THRESHOLD : ℚ := 0.5

/-- CONC_THRESHOLD = -10 (TeiOzone.flag). -/
def CONC_THRESHOLD : ℚ := -10

/-- TeiOzone.flag.  The flag columns are created holding zeros, the status
masks computed, then in order: CONC_FLAG = 1 where conc < -10;
FLOW_FLAG = 1 where FlowA < 0.5; the whole row = 1 where FlowB < 0.5
(every column: 1 in the numeric columns, true in the boolean ones, and
the number 1 in the string column, rendered as its decimal string); and
WOW_FLAG = 1 where the (by then possibly clobbered) WOW_IND is
nonzero. -/
def tei_ozone_flag (d : OzoneFrame) : OzoneFrame :=
  let n := d.TEIOZO_conc.length
  let f1 := if "1c100000" ∈ tei_status_norm d.TEIOZO_flag
            then (tei_status_norm d.TEIOZO_flag).map (fun sv => decide (sv ≠ "1c100000"))
            else List.replicate (tei_status_norm d.TEIOZO_flag).length false
  let f2 := if "0c100000" ∈ tei_status_norm d.TEIOZO_flag
            then (tei_status_norm d.TEIOZO_flag).map (fun sv => decide (sv ≠ "0c100000"))
            else List.replicate (tei_status_norm d.TEIOZO_flag).length false
  let statusFlag := tei_status_mask d.TEIOZO_flag
  let concFlag := List.zipWith (fun c f => if c < CONC_THRESHOLD then (1:ℚ) else f)
      d.TEIOZO_conc (List.replicate n (0:ℚ))
  let flowFlag := List.zipWith (fun a f => if a < FLOW_THRESHOLD then (1:ℚ) else f)
      d.TEIOZO_FlowA (List.replicate n (0:ℚ))
  let rowHit := d.TEIOZO_FlowB.map (fun b => decide (b < FLOW_THRESHOLD))
  let clobQ := fun (col : List ℚ) =>
    List.zipWith (fun h x => if h then (1:ℚ) else x) rowHit col
  let clobB := fun (col : List Bool) =>
    List.zipWith (fun h x => if h then true else x) rowHit col
  let clobS := fun (col : List String) =>
    List.zipWith (fun h x => if h then "1" else x) rowHit col
  let wow2 := clobQ d.WOW_IND
  let wowFlag := List.zipWith (fun w f => if w ≠ 0 then (1:ℚ) else f)
      wow2 (clobQ (List.replicate n (0:ℚ)))
  { TEIOZO_conc := clobQ d.TEIOZO_conc
    TEIOZO_FlowA := clobQ d.TEIOZO_FlowA
    TEIOZO_FlowB := clobQ d.TEIOZO_FlowB
    WOW_IND := wow2
    TEIOZO_flag := clobS d.TEIOZO_flag
    STATUS_FLAG := clobB statusFlag
    STATUS_FLAG1 := clobB f1
    STATUS_FLAG2 := clobB f2
    CONC_FLAG := clobQ concFlag
    FLOW_FLAG := clobQ flowFlag
    WOW_FLAG := wowFlag }

/-- TeiOzone.process: the O3_TECO data series is d.TEIOZO_conc as left by
flag(). -/
def tei_O3_TECO (d : OzoneFrame) : List ℚ := (tei_ozone_flag d).TEIOZO_conc

/-- C7 (claim refuted): at a one-sample frame with FlowB = 0 below the 0.5
threshold but nominal status, in-range concentration 50, good FlowA and
weight off wheels, the flow-B branch does set FLOW_FLAG, but it also
rewrites the rest of the row: the concentration passed through as O3_TECO
becomes 1 (instead of 50), and the WOW and status flags are raised even
though WOW_IND was 0 and the status was the nominal code.  This
contradicts the claim that the flow-B threshold test changes nothing but
the flow mask. -/
theorem tei_ozone_flowB_clobbers_frame :
    (tei_ozone_flag
      { TEIOZO_conc := [50], TEIOZO_FlowA := [1], TEIOZO_FlowB := [0],
        WOW_IND := [0], TEIOZO_flag := ["1c100000"], STATUS_FLAG := [],
        STATUS_FLAG1 := [], STATUS_FLAG2 := [], CONC_FLAG := [],
        FLOW_FLAG := [], WOW_FLAG := [] }).FLOW_FLAG = [1] ∧
    tei_O3_TECO
      { TEIOZO_conc := [50], TEIOZO_FlowA := [1], TEIOZO_FlowB := [0],
        WOW_IND := [0], TEIOZO_flag := ["1c100000"], STATUS_FLAG := [],
        STATUS_FLAG1 := [], STATUS_FLAG2 := [], CONC_FLAG := [],
        FLOW_FLAG := [], WOW_FLAG := [] } = [1] ∧
    (tei_ozone_flag
      { TEIOZO_conc := [50], TEIOZO_FlowA := [1], TEIOZO_FlowB := [0],
        WOW_IND := [0], TEIOZO_flag := ["1c100000"], STATUS_FLAG := [],
        STATUS_FLAG1 := [], STATUS_FLAG2 := [], CONC_FLAG := [],
        FLOW_FLAG := [], WOW_FLAG := [] }).WOW_FLAG = [1] ∧
    (tei_ozone_flag
      { TEIOZO_conc := [50], TEIOZO_FlowA := [1], TEIOZO_FlowB := [0],
        WOW_IND := [0], TEIOZO_flag := ["1c100000"], STATUS_FLAG := [],
        STATUS_FLAG1 := [], STATUS_FLAG2 := [], CONC_FLAG := [],
        FLOW_FLAG := [], WOW_FLAG := [] }).STATUS_FLAG = [true] := by
  refine ⟨?_, ?_, ?_, ?_⟩ <;>
    simp only [tei_ozone_flag, tei_O3_TECO, tei_status_mask, tei_status_norm,
      FLOW_THRESHOLD, CONC_THRESHOLD] <;>
    norm_num <;>
    decide

theorem zipWith_or_getD (f1 f2 : List Bool) (i : ℕ)
    (h1 : i < f1.length) (h2 : i < f2.length) :
    (List.zipWith or f1 f2).getD i false = ((f1.getD i false) || (f2.getD i false)) := by
  have hz : i < (List.zipWith or f1 f2).length := by
    simp only [List.length_zipWith]
    omega
  rw [List.getD_eq_getElem _ _ hz, List.getD_eq_getElem _ _ h1,
    List.getD_eq_getElem _ _ h2]
  exact List.getElem_zipWith

/-- C8 (amended): the instrument-alarm status mask is presence-guarded:
each nominal code contributes its case-insensitive disequality mask only
when that code occurs somewhere in the normalized status series, and
STATUS_FLAG is the union of the two contributions.  Consequently, when
neither recognised nominal code occurs, no sample is flagged, and when
both occur, every sample is flagged. -/
theorem tei_status_mask_guarded (status : List String) (i : ℕ)
    (hi : i < status.length) :
    ((tei_status_mask status).getD i false =
      ((if "1c100000" ∈ tei_status_norm status
        then decide ((tei_status_norm status).getD i "" ≠ "1c100000") else false) ||
       (if "0c100000" ∈ tei_status_norm status
        then decide ((tei_status_norm status).getD i "" ≠ "0c100000") else false))) ∧
    (("1c100000" ∉ tei_status_norm status ∧ "0c100000" ∉ tei_status_norm status) →
      (tei_status_mask status).getD i false = false) ∧
    (("1c100000" ∈ tei_status_norm status ∧ "0c100000" ∈ tei_status_norm status) →
      (tei_status_mask status).getD i false = true) := by
  have hNlen : (tei_status_norm status).length = status.length := by
    simp [tei_status_norm]
  have hiN : i < (tei_status_norm status).length := by omega
  have hb : ∀ code : String,
      ((if code ∈ tei_status_norm status
        then (tei_status_norm status).map (fun sv => decide (sv ≠ code))
        else List.replicate (tei_status_norm status).length false).getD i false) =
      (if code ∈ tei_status_norm status
        then decide ((tei_status_norm status).getD i "" ≠ code) else false) := by
    intro code
    split
    · rw [List.getD_eq_getElem _ _ (by simpa using hiN), List.getElem_map,
        List.getD_eq_getElem _ _ hiN]
    · rw [List.getD_eq_getElem _ _ (by simpa using hiN), List.getElem_replicate]
  have hb1len : (if "1c100000" ∈ tei_status_norm status
      then (tei_status_norm status).map (fun sv => decide (sv ≠ "1c100000"))
      else List.replicate (tei_status_norm status).length false).length
      = (tei_status_norm status).length := by
    split <;> simp
  have hb2len : (if "0c100000" ∈ tei_status_norm status
      then (tei_status_norm status).map (fun sv => decide (sv ≠ "0c100000"))
      else List.replicate (tei_status_norm status).length false).length
      = (tei_status_norm status).length := by
    split <;> simp
  have key : (tei_status_mask status).getD i false =
      ((if "1c100000" ∈ tei_status_norm status
        then decide ((tei_status_norm status).getD i "" ≠ "1c100000") else false) ||
       (if "0c100000" ∈ tei_status_norm status
        then decide ((tei_status_norm status).getD i "" ≠ "0c100000") else false)) := by
    rw [tei_status_mask]
    rw [zipWith_or_getD _ _ i (by omega) (by omega)]
    rw [hb "1c100000", hb "0c100000"]
  refine ⟨key, ?_, ?_⟩
  · rintro ⟨hn1, hn2⟩
    rw [key, if_neg hn1, if_neg hn2]
    rfl
  · rintro ⟨h1, h2⟩
    rw [key, if_pos h1, if_pos h2]
    by_cases he : (tei_status_norm status).getD i "" = "1c100000"
    · have hne : (tei_status_norm status).getD i "" ≠ "0c100000" := by
        rw [he]
        decide
      rw [decide_eq_true hne, Bool.or_true]
    · rw [decide_eq_true he, Bool.true_or]

/-- Witness for C8 (amended) at a concrete series in which only the
0c100000 nominal code occurs: the second sample (a non-nominal status) is
flagged through the presence-guarded disequality. -/
theorem tei_status_mask_guarded_witness :
    (tei_status_mask ["0c100000", "ABC"]).getD 1 false =
      ((if "1c100000" ∈ tei_status_norm ["0c100000", "ABC"]
        then decide ((tei_status_norm ["0c100000", "ABC"]).getD 1 "" ≠ "1c100000") else false) ||
       (if "0c100000" ∈ tei_status_norm ["0c100000", "ABC"]
        then decide ((tei_status_norm ["0c100000", "ABC"]).getD 1 "" ≠ "0c100000") else false)) :=
  (tei_status_mask_guarded ["0c100000", "ABC"] 1 (by decide)).1

/-- C8 counterexample: a status series in which no nominal code ever
occurs.  Its only sample differs (case-insensitively) from both
recognised nominal codes, yet the instrument-alarm mask is not set there
— refuting the claim that the mask is set at exactly the samples whose
status differs from the nominal code, for every input series. -/
theorem tei_status_mask_counterexample :
    tei_status_mask ["zz"] = [false] ∧
    pyLower "zz" ≠ "1c100000" ∧ pyLower "zz" ≠ "0c100000" := by
  decide

/-! ### Target index construction of p_solar and p_winds_gin

Both SolarAngles.process and GINWinds.process build their 1 Hz target
index as pd.date_range(start, end, freq=1S) with start and end the FIRST
and LAST raw timestamps of the primary input, each put through
Timestamp.round(1S) — rounding to the NEAREST second (ties to even), not
flooring or ceiling.  Timestamps are modelled as nanosecond counts. -/

/-- Nanoseconds per second. -/
def NS_PER_SEC : ℕ := 1000000000

/-- pandas Timestamp.round(1S): nearest whole second, ties to even. -/
def round_1s (t : ℕ) : ℕ :=
  let sec := t / NS_PER_SEC
  let rem := t % NS_PER_SEC
  if rem < NS_PER_SEC / 2 then sec * NS_PER_SEC
  else if NS_PER_SEC / 2 < rem then (sec + 1) * NS_PER_SEC
  else if sec % 2 = 0 then sec * NS_PER_SEC else (sec + 1) * NS_PER_SEC

/-- Floor to the whole second (what the claim asserts for the first
point). -/
def floor_1s (t : ℕ) : ℕ := (t / NS_PER_SEC) * NS_PER_SEC

/-- Ceiling to the whole second (what the claim asserts for the last
point). -/
def ceil_1s (t : ℕ) : ℕ := ((t + NS_PER_SEC - 1) / NS_PER_SEC) * NS_PER_SEC

/-- pd.date_range(start, end, freq=1S) for whole-second endpoints: every
second from start to stop, both included. -/
def date_range_1s (start stop : ℕ) : List ℕ :=
  if stop < start then []
  else (List.range ((stop - start) / NS_PER_SEC + 1)).map
    (fun k => start + k * NS_PER_SEC)

/-- SolarAngles.process lines 36-47: the target index spans the rounded
first and last timestamps of the LAT_GIN series. -/
def solar_target_index (ts : List ℕ) : List ℕ :=
  date_range_1s (round_1s (ts.headD 0)) (round_1s (ts.getLastD 0))

/-- GINWinds.process lines 99-106: the target index spans the rounded
first and last timestamps of the TAS_RVSM series. -/
def winds_target_index (ts : List ℕ) : List ℕ :=
  date_range_1s (round_1s (ts.headD 0)) (round_1s (ts.getLastD 0))

/-- C10 counterexample: a primary series starting (and ending) at
1.7 seconds.  Both modules round to the nearest second, giving a grid
starting at 2.0 s, whereas the claim asserts the first point is the floor
1.0 s (and, for a last timestamp of 0.3 s, the rounded end 0.0 s likewise
differs from the ceiling 1.0 s). -/
theorem target_index_counterexample :
    solar_target_index [1700000000] = [2000000000] ∧
    winds_target_index [1700000000] = [2000000000] ∧
    floor_1s 1700000000 = 1000000000 ∧
    (2000000000 : ℕ) ≠ 1000000000 ∧
    round_1s 300000000 = 0 ∧
    ceil_1s 300000000 = 1000000000 := by
  exact ⟨by decide, by decide, by decide, by decide, by decide, by decide⟩

/-- C10 (amended): the target index constructed by the solar-geometry and
wind modules is a uniformly regular one-second grid whose first point is
the round-to-nearest-second (ties to even) of the first raw timestamp of
the primary input and whose last point is the round-to-nearest-second of
its last raw timestamp; both modules construct it identically. -/
theorem target_index_round_grid (ts : List ℕ)
    (hle : round_1s (ts.headD 0) ≤ round_1s (ts.getLastD 0)) :
    (solar_target_index ts).head? = some (round_1s (ts.headD 0)) ∧
    (solar_target_index ts).getLast? = some (round_1s (ts.getLastD 0)) ∧
    (∀ k, k < (solar_target_index ts).length →
      (solar_target_index ts).getD k 0 = round_1s (ts.headD 0) + k * NS_PER_SEC) ∧
    winds_target_index ts = solar_target_index ts := by
  have hdvd : ∀ t : ℕ, NS_PER_SEC ∣ round_1s t := by
    intro t
    rw [round_1s]
    split
    · exact dvd_mul_left _ _
    split
    · exact dvd_mul_left _ _
    split
    · exact dvd_mul_left _ _
    · exact dvd_mul_left _ _
  set a := round_1s (ts.headD 0) with ha
  set b := round_1s (ts.getLastD 0) with hb
  have hne : ¬ b < a := not_lt.mpr hle
  have hgrid : solar_target_index ts =
      (List.range ((b - a) / NS_PER_SEC + 1)).map (fun k => a + k * NS_PER_SEC) := by
    rw [solar_target_index, date_range_1s, if_neg hne]
  have hlen : (solar_target_index ts).length = (b - a) / NS_PER_SEC + 1 := by
    rw [hgrid]
    simp
  have hget : ∀ k, k < (solar_target_index ts).length →
      (solar_target_index ts).getD k 0 = a + k * NS_PER_SEC := by
    intro k hk
    have hk2 : k < ((List.range ((b - a) / NS_PER_SEC + 1)).map
        (fun k => a + k * NS_PER_SEC)).length := by
      rw [← hgrid]
      exact hk
    rw [hgrid, List.getD_eq_getElem _ _ hk2, List.getElem_map, List.getElem_range]
  have hlpos : 0 < (solar_target_index ts).length := by
    rw [hlen]
    exact Nat.succ_pos _
  refine ⟨?_, ?_, hget, rfl⟩
  · have h0 := hget 0 hlpos
    rw [List.getD_eq_getElem _ _ hlpos] at h0
    rw [List.head?_eq_getElem?, List.getElem?_eq_getElem hlpos, h0]
    simp
  · rw [List.getLast?_eq_getElem?]
    have hidx : (solar_target_index ts).length - 1 < (solar_target_index ts).length := by
      exact Nat.sub_lt hlpos Nat.one_pos
    rw [List.getElem?_eq_getElem hidx]
    have hval := hget ((solar_target_index ts).length - 1) hidx
    rw [List.getD_eq_getElem _ _ hidx] at hval
    rw [hval]
    congr 1
    rw [hlen]
    simp only [Nat.add_sub_cancel]
    have hba : NS_PER_SEC ∣ (b - a) := Nat.dvd_sub' (hdvd _) (hdvd _)
    obtain ⟨c, hc⟩ := hba
    have hdiv : (b - a) / NS_PER_SEC = c := by
      rw [hc]
      exact Nat.mul_div_cancel_left c (by norm_num [NS_PER_SEC])
    rw [hdiv]
    have hNS : NS_PER_SEC = 1000000000 := rfl
    rw [hNS] at hc ⊢
    omega

/-- Witness for the amended C10 at a concrete series from 1.7 s to 3.3 s:
the grid runs from 2.0 s to 3.0 s in both modules. -/
theorem target_index_round_grid_witness :
    (solar_target_index [1700000000, 3300000000]).head?
      = some (round_1s (([1700000000, 3300000000] : List ℕ).headD 0)) ∧
    (solar_target_index [1700000000, 3300000000]).getLast?
      = some (round_1s (([1700000000, 3300000000] : List ℕ).getLastD 0)) ∧
    winds_target_index [1700000000, 3300000000]
      = solar_target_index [1700000000, 3300000000] :=
  ⟨(target_index_round_grid [1700000000, 3300000000] (by decide)).1,
   (target_index_round_grid [1700000000, 3300000000] (by decide)).2.1,
   (target_index_round_grid [1700000000, 3300000000] (by decide)).2.2.2⟩

end Ppodd
